import Mathlib

/-!
Verification development for the Quant BOBE repository.

Part 1 embeds the web layer (TypeScript under web/): the CSV readers
in web/lib/server/live-pnl.ts and web/lib/repo.ts, the market watchlist
route in web/app/api/market/watchlist/route.ts, and the Alpaca snapshot
helper in web/lib/server/alpaca.ts.

Part 2 models the core engine (the Python package src/quantbobe, whose
code is not part of the public sources; only its documentation, README
and TASKS.md, describes it): regime breadth, the execution-aware Kelly
sizing, the equity curve, the portfolio constraint projection, the cost
model, and the backtest state machine.

JavaScript numbers are modelled by rationals; the builtin Number parse
is kept abstract as a parameter num : Option String -> Rat, where
num none stands for Number(undefined), i.e. NaN.
-/

/-- Model of the JavaScript String.prototype.trim used by the readers:
drop whitespace from both ends of the character list. -/
def jsTrim (s : String) : String :=
  String.mk (((s.data.dropWhile Char.isWhitespace).reverse.dropWhile
    Char.isWhitespace).reverse)

/-- Split a character list on a separator character, keeping empty
segments, exactly like JavaScript String.prototype.split with a
one-character separator. Always returns at least one segment. -/
def splitFields (sep : Char) : List Char → List (List Char)
  | [] => [[]]
  | c :: rest =>
    match splitFields sep rest with
    | [] => [[c]]
    | f :: fs => if c = sep then [] :: f :: fs else (c :: f) :: fs

/-- Model of JavaScript split(",") on a string. -/
def jsSplit (sep : Char) (s : String) : List String :=
  (splitFields sep s.data).map String.mk

/-- Model of split on the regular expression matching an optional
carriage return followed by a newline. We split on the newline and then
drop a trailing carriage return from each piece; on inputs that have
already been trimmed the two agree, because a trimmed string never ends
in a carriage return. -/
def jsSplitLines (s : String) : List String :=
  (splitFields '\n' s.data).map (fun cs =>
    match cs.getLast? with
    | some c => if c = '\r' then String.mk cs.dropLast else String.mk cs
    | none => String.mk cs)

/-- Model of the record built by
headers.forEach((key, idx) => record[key] = values[idx] ?? "").
Looking up a key absent from the headers gives none (JavaScript
undefined); with duplicate headers the last occurrence wins. -/
def recordGet (headers values : List String) (key : String) : Option String :=
  ((headers.enum.filter (fun p => p.2 == key)).getLast?).map
    (fun p => values.getD p.1 "")

/-- Row shape produced by readLivePnl in web/lib/server/live-pnl.ts.
The timestamp field is undefined (none) when the header lacks it. -/
structure LivePnlRow where
  timestamp : Option String
  equity : ℚ
  cash : ℚ
deriving DecidableEq, Repr

/-- Embedding of the try-block body of readLivePnl
(web/lib/server/live-pnl.ts lines 20 to 35): trim the raw text, split
into lines, destructure header and rows, return [] on a falsy header
line, otherwise map each row through the record built from the header,
parsing equity and cash with Number(record.x ?? "0"). -/
def readLivePnl (num : Option String → ℚ) (raw : String) : List LivePnlRow :=
  match jsSplitLines (jsTrim raw) with
  | [] => []
  | headerLine :: rows =>
    if headerLine = "" then []
    else
      let headers := jsSplit ',' headerLine
      rows.map (fun row =>
        let values := jsSplit ',' row
        { timestamp := recordGet headers values "timestamp"
          equity := num (some ((recordGet headers values "equity").getD "0"))
          cash := num (some ((recordGet headers values "cash").getD "0")) })

/-- readLivePnl including the catch handler: a failed file read (none)
returns the empty list. -/
def readLivePnlResult (num : Option String → ℚ) : Option String → List LivePnlRow
  | none => []
  | some raw => readLivePnl num raw

/-- Row shape produced by readTradesCsv in web/lib/repo.ts. Fields read
from an absent header column are undefined (none); quantity, price and
notional go through Number without a default. -/
structure TradeLogRow where
  date : Option String
  symbol : Option String
  quantity : ℚ
  price : ℚ
  notional : ℚ
  sleeve : Option String
deriving DecidableEq, Repr

/-- Embedding of the try-block body of readTradesCsv
(web/lib/repo.ts lines 35 to 52): same CSV machinery as readLivePnl,
but with no falsy-header guard and with the trade fields. -/
def readTradesCsv (num : Option String → ℚ) (raw : String) : List TradeLogRow :=
  match jsSplitLines (jsTrim raw) with
  | [] => []
  | headerLine :: rows =>
    let headers := jsSplit ',' headerLine
    rows.map (fun row =>
      let values := jsSplit ',' row
      { date := recordGet headers values "date"
        symbol := recordGet headers values "symbol"
        quantity := num (recordGet headers values "quantity")
        price := num (recordGet headers values "price")
        notional := num (recordGet headers values "notional")
        sleeve := recordGet headers values "sleeve" })

/-- readTradesCsv including the catch handler: a failed file read
returns the empty list. -/
def readTradesCsvResult (num : Option String → ℚ) : Option String → List TradeLogRow
  | none => []
  | some raw => readTradesCsv num raw

/-- Response of the watchlist route: either status 400 or a JSON list
pairing each requested symbol with its quote (none when the quote
fetch failed). -/
inductive WatchlistResponse (Q : Type) where
  | badRequest
  | ok (payload : List (String × Option Q))
deriving DecidableEq, Repr

/-- Embedding of GET in web/app/api/market/watchlist/route.ts: a falsy
symbols parameter (absent, or present but empty) yields status 400;
otherwise the parameter is split on commas, each piece trimmed, empty
pieces dropped, and each remaining symbol paired with its quote. -/
def watchlistGET {Q : Type} (fetchQuote : String → Option Q)
    (symbolsParam : Option String) : WatchlistResponse Q :=
  match symbolsParam with
  | none => .badRequest
  | some s =>
    if s = "" then .badRequest
    else
      let symbols := ((jsSplit ',' s).map jsTrim).filter (fun x => x ≠ "")
      .ok (symbols.map (fun sym => (sym, fetchQuote sym)))

/-- Snapshot shape returned by fetchAlpacaSnapshot in
web/lib/server/alpaca.ts. -/
structure AlpacaSnapshot (Acc Pos Ord Clk : Type) where
  account : Option Acc
  positions : List Pos
  openOrders : List Ord
  clock : Option Clk
deriving DecidableEq, Repr

/-- JavaScript truthiness of a nullable string: null and the empty
string are falsy. -/
def jsTruthyStr : Option String → Bool
  | none => false
  | some s => s ≠ ""

/-- Embedding of getAlpacaClient (web/lib/server/alpaca.ts lines 12 to
27): a falsy key id or secret yields no client; the client itself is
represented by the credential pair. -/
def getAlpacaClient (keyId secretKey : Option String) : Option (String × String) :=
  if jsTruthyStr keyId && jsTruthyStr secretKey then
    some (keyId.getD "", secretKey.getD "")
  else
    none

/-- Embedding of fetchAlpacaSnapshot (web/lib/server/alpaca.ts lines 29
to 70). The four broker calls are passed in as Except results; each
catch handler replaces a failure by the default of that field (null for
account and clock, the empty list for positions and open orders)
independently of the other three. -/
def fetchAlpacaSnapshot {Acc Pos Ord Clk E₁ E₂ E₃ E₄ : Type}
    (keyId secretKey : Option String)
    (getAccount : Except E₁ Acc) (getPositions : Except E₂ (List Pos))
    (getOrders : Except E₃ (List Ord)) (getClock : Except E₄ Clk) :
    AlpacaSnapshot Acc Pos Ord Clk :=
  match getAlpacaClient keyId secretKey with
  | none => { account := none, positions := [], openOrders := [], clock := none }
  | some _ =>
    { account := getAccount.toOption
      positions := match getPositions with | .ok v => v | .error _ => []
      openOrders := match getOrders with | .ok v => v | .error _ => []
      clock := getClock.toOption }

/-!
Part 2: the core engine. The Python package src/quantbobe is not part
of the public sources, so the definitions below are modelled from the
specification and from TASKS.md, which documents the regime helpers.
Prices and monetary amounts are modelled by rationals.
-/

/-- Daily bar for one symbol: close and the optional adjusted close. -/
structure Bar where
  close : ℚ
  adjClose : Option ℚ
deriving DecidableEq, Repr

/-- The adjusted-close series of a trailing window, requiring the field
on every bar: a single missing field makes the whole column lookup
fail, modelled as none (the KeyError documented in TASKS.md). -/
def adjCloseSeries : List Bar → Option (List ℚ)
  | [] => some []
  | b :: rest =>
    match b.adjClose, adjCloseSeries rest with
    | some x, some xs => some (x :: xs)
    | _, _ => none

/-- The adjusted-close series of every symbol in the universe, failing
as a whole when any symbol fails. -/
def allAdjSeries : List (List Bar) → Option (List (List ℚ))
  | [] => some []
  | w :: rest =>
    match adjCloseSeries w, allAdjSeries rest with
    | some s, some ss => some (s :: ss)
    | _, _ => none

/-- Whether the latest price of a trailing window is above the window
mean (the trailing moving average), stated multiplicatively to avoid
division. An empty window counts as not above. -/
def aboveTrailingMA (prices : List ℚ) : Bool :=
  match prices.getLast? with
  | none => false
  | some p => decide ((prices.length : ℚ) * p > prices.sum)

/-- Breadth of a universe of per-symbol price windows: the fraction of
symbols whose latest price is above their own trailing moving average. -/
def breadthOf (ss : List (List ℚ)) : ℚ :=
  ((ss.countP aboveTrailingMA : ℕ) : ℚ) / (ss.length : ℚ)

/-- trend_breadth as documented in TASKS.md items 7 to 9: the helper
indexes the adjusted-close column unconditionally, so any symbol whose
bars lack the field raises a KeyError (none) instead of falling back
to close. -/
def trend_breadth (data : List (List Bar)) : Option ℚ :=
  (allAdjSeries data).map breadthOf

/-- Modelled from the spec: the mandated corrected contract for the
missing regime helper — breadth computed with a uniform fallback from
adjusted close to close whenever the field is absent. -/
def trend_breadth_fallback (data : List (List Bar)) : ℚ :=
  breadthOf (data.map (fun bars => bars.map (fun b => b.adjClose.getD b.close)))

/-- The duplicate dataset of the breadth property in the spec: each
adjusted close is explicitly set equal to its close. -/
def setAdjEqualClose (data : List (List Bar)) : List (List Bar) :=
  data.map (fun bars => bars.map (fun b => { close := b.close, adjClose := some b.close }))

/-- Modelled from the spec: the execution-aware Kelly fraction
f_EK = (expected alpha return - expected impact cost - expected
turnover cost) / alpha variance. -/
def f_EK (mu impact turnover variance : ℚ) : ℚ :=
  (mu - impact - turnover) / variance

/-- Modelled from the spec: the applied live fraction eta * f_EK. -/
def liveFraction (eta mu impact turnover variance : ℚ) : ℚ :=
  eta * f_EK mu impact turnover variance

/-- Modelled from the spec: the unconstrained Kelly fraction computed
from the same alpha and variance inputs without the cost terms. -/
def kellyUnconstrained (mu variance : ℚ) : ℚ := mu / variance

/-- Modelled from the spec: the equity curve under the update rule
equity_t = equity_{t-1} + realized_pnl_t - realized_cost_t, as the list
of equity points starting from the initial equity, one further point
per (pnl, cost) day. -/
def equityCurve (e0 : ℚ) : List (ℚ × ℚ) → List ℚ
  | [] => [e0]
  | day :: rest => e0 :: equityCurve (e0 + day.1 - day.2) rest

/-- The list of consecutive ratios equity_t / equity_{t-1} of an equity
curve; the log returns of the run are the logarithms of these ratios. -/
def consecutiveRatios : List ℚ → List ℚ
  | [] => []
  | [_] => []
  | a :: b :: rest => (b / a) :: consecutiveRatios (b :: rest)

/-- Modelled from the spec: clip a single weight to the per-name cap. -/
def clipWeight (maxNameWeight w : ℚ) : ℚ :=
  max (-maxNameWeight) (min maxNameWeight w)

/-- Gross exposure of a weight vector: the sum of absolute weights. -/
def grossExposure (ws : List ℚ) : ℚ := (ws.map (fun w => |w|)).sum

/-- Inner product of two weight vectors, used for the factor
projection of the constraint step. -/
def dot (xs ys : List ℚ) : ℚ := (List.zipWith (fun x y => x * y) xs ys).sum

/-- Modelled from the spec: the first two operations of PortfolioSizer
step 5 — clip each weight to the per-name cap, then rescale the vector
when its gross exposure exceeds the gross exposure cap. -/
def clipRescale (maxNameWeight grossCap : ℚ) (ws : List ℚ) : List ℚ :=
  let clipped := ws.map (clipWeight maxNameWeight)
  let g := grossExposure clipped
  if g ≤ grossCap then clipped else clipped.map (fun w => w * (grossCap / g))

/-- Modelled from the spec: the sector/beta-neutrality adjustment of
PortfolioSizer step 5 — subtract from the weights their projection onto
the factor basis, here a single factor direction f. A degenerate factor
(zero norm, the singular case of section 7) takes the mandated
no-adjustment fallback; coordinates beyond the length of f count as
zero factor exposure. -/
def neutralityAdjust (f ws : List ℚ) : List ℚ :=
  if dot f f = 0 then ws
  else ws.enum.map (fun p => p.2 - (dot ws f / dot f f) * f.getD p.1 0)

/-- Modelled from the spec: PortfolioSizer step 5 in full and in order —
clip per-name weight to max_name_weight, rescale to respect the gross
exposure cap, and adjust for sector/beta neutrality by subtracting the
projection onto the factor basis. -/
def constraintProject (maxNameWeight grossCap : ℚ) (f ws : List ℚ) : List ℚ :=
  neutralityAdjust f (clipRescale maxNameWeight grossCap ws)

/-- Modelled from the spec: the scalar stages of the sizer pipeline.
Raw directional weights proportional to alpha are scaled by the
volatility-target leverage (step 1), the regime risk multiplier
(step 2), the applied live Kelly fraction eta times f_EK (step 3,
the liveFraction of the Kelly governor) and the drawdown brake
(step 4). -/
def rawWeights (leverage riskMultiplier kellyScale ddBrake : ℚ)
    (alphas : List ℚ) : List ℚ :=
  alphas.map (fun a => a * leverage * riskMultiplier * kellyScale * ddBrake)

/-- Modelled from the spec: the PortfolioSizer pipeline for one date —
the scalar stages of steps 1 to 4 followed by the full step-5
constraint projection against the factor direction f. -/
def sizeWeights (leverage riskMultiplier kellyScale ddBrake maxNameWeight grossCap : ℚ)
    (f alphas : List ℚ) : List ℚ :=
  constraintProject maxNameWeight grossCap f
    (rawWeights leverage riskMultiplier kellyScale ddBrake alphas)

/-- Order candidate fields the cost model reads: unsigned share
quantity, trade notional, the net short notional carrying borrow, the
average daily volume, and optional spread data in percent. -/
structure OrderCandidate where
  quantity : ℚ
  notional : ℚ
  shortNotional : ℚ
  adv : ℚ
  spreadPct : Option ℚ
deriving DecidableEq, Repr

/-- Cost model configuration: impact coefficient, daily borrow rate,
additive slippage buffer, and the conservative defaults substituted for
missing or degenerate spread and volume data. -/
structure CostParams where
  k : ℚ
  borrowRate : ℚ
  slippageBuffer : ℚ
  defaultSpreadPct : ℚ
  defaultAdv : ℚ
deriving DecidableEq, Repr

/-- Modelled from the spec: the spread component; zero or missing
spread data falls back to the conservative default, never dividing. -/
def spreadCost (p : CostParams) (o : OrderCandidate) : ℚ :=
  let sp := match o.spreadPct with
    | some s => if s ≤ 0 then p.defaultSpreadPct else s
    | none => p.defaultSpreadPct
  (sp / 2) * o.notional

/-- Modelled from the spec: the square-root impact component
k * sqrt(quantity / ADV) * notional; a non-positive ADV is replaced by
the conservative default volume before any division, so the quotient is
never taken with a zero denominator. The square root is the abstract
parameter sqrtF (the floating-point sqrt of the host language). -/
def impactCost (sqrtF : ℚ → ℚ) (p : CostParams) (o : OrderCandidate) : ℚ :=
  let vol := if o.adv ≤ 0 then p.defaultAdv else o.adv
  p.k * sqrtF (o.quantity / vol) * o.notional

/-- Modelled from the spec: borrow accrues on the net short notional. -/
def borrowCost (p : CostParams) (o : OrderCandidate) : ℚ :=
  p.borrowRate * o.shortNotional

/-- Modelled from the spec: CostModel.estimate, the expected cost
spread + impact + borrow + slippage buffer of an order candidate. -/
def costEstimate (sqrtF : ℚ → ℚ) (p : CostParams) (o : OrderCandidate) : ℚ :=
  spreadCost p o + impactCost sqrtF p o + borrowCost p o + p.slippageBuffer

/-- Modelled from the spec: CostModel.charge, the realized cost of an
executed order, computed by the same fail-closed formula. -/
def costCharge (sqrtF : ℚ → ℚ) (p : CostParams) (o : OrderCandidate) : ℚ :=
  costEstimate sqrtF p o

/-- Modelled from the spec: the BacktestEngine state — remaining dates
with their market payloads, the trailing history already consumed, the
current weights and equity, and the persisted equity and trade logs. -/
structure EngineState (D : Type) where
  remaining : List D
  history : List D
  weights : List ℚ
  equity : ℚ
  equityLog : List ℚ
  tradeLog : List (List ℚ)
deriving DecidableEq, Repr

/-- Orders are derived strictly from the weight delta between
consecutive rebalance dates. -/
def orderDiff (prior target : List ℚ) : List ℚ :=
  List.zipWith (fun t w => t - w) target prior

/-- Modelled from the spec: one day of the BacktestEngine state
machine. While the trailing history is shorter than the minimum
lookback the engine is in Warmup: the day is consumed, no trades and no
weight changes happen, and the unchanged equity is appended. Once the
lookback is satisfied the engine is Active: the full pipeline (the
function pipe, mapping the day, the history, the prior weights and the
equity to new weights and new equity net of costs) runs, the weight
delta is logged as the orders of the day, and the new equity is appended.
Terminal states, with no remaining dates, have no successor. -/
inductive EngineStep {D : Type} (minLookback : ℕ)
    (pipe : D → List D → List ℚ → ℚ → List ℚ × ℚ) :
    EngineState D → EngineState D → Prop
  | warmup (d : D) (rest h : List D) (w : List ℚ) (e : ℚ)
      (elog : List ℚ) (tlog : List (List ℚ)) :
      h.length < minLookback →
      EngineStep minLookback pipe ⟨d :: rest, h, w, e, elog, tlog⟩
        ⟨rest, d :: h, w, e, elog ++ [e], tlog⟩
  | active (d : D) (rest h : List D) (w : List ℚ) (e : ℚ)
      (elog : List ℚ) (tlog : List (List ℚ)) :
      minLookback ≤ h.length →
      EngineStep minLookback pipe ⟨d :: rest, h, w, e, elog, tlog⟩
        ⟨rest, d :: h, (pipe d h w e).1, (pipe d h w e).2,
          elog ++ [(pipe d h w e).2], tlog ++ [orderDiff w (pipe d h w e).1]⟩

/-- A complete run: the reflexive-transitive closure of the daily step,
ending in a Terminal state with no remaining dates. -/
def EngineRunsTo {D : Type} (minLookback : ℕ)
    (pipe : D → List D → List ℚ → ℚ → List ℚ × ℚ)
    (s f : EngineState D) : Prop :=
  Relation.ReflTransGen (EngineStep minLookback pipe) s f ∧ f.remaining = []

/-!
Theorems. The first group settles the claims about the core engine, the
second group the claims about the web layer.
-/

/-- Claim C1: TASKS.md documents that trend_breadth indexes the
adjusted-close column unconditionally and raises a KeyError when it is
absent, while the spec mandates a uniform fallback to close. On the
concrete dataset of one symbol whose adjusted close is always absent,
the documented code fails (none) even though the same dataset with
adjusted close set equal to close succeeds, and the mandated fallback
behaviour computes equal breadth on the two datasets. -/
theorem trend_breadth_missing_adjclose_bug :
    trend_breadth [[⟨10, none⟩, ⟨12, none⟩]] = none ∧
    trend_breadth (setAdjEqualClose [[⟨10, none⟩, ⟨12, none⟩]]) =
      some (trend_breadth_fallback [[⟨10, none⟩, ⟨12, none⟩]]) ∧
    trend_breadth_fallback [[⟨10, none⟩, ⟨12, none⟩]] =
      trend_breadth_fallback (setAdjEqualClose [[⟨10, none⟩, ⟨12, none⟩]]) :=
  ⟨rfl, rfl, rfl⟩

/-- Claim C2, counterexample: with expected alpha return -1, zero cost
terms, unit variance and eta = 1/4, every hypothesis of the claim holds
(positive variance, non-negative costs, eta within [1/4, 1/2]), yet the
applied live fraction -1/4 strictly exceeds the unconstrained Kelly
fraction -1. -/
theorem liveFraction_exceeds_kelly_cex :
    0 < (1 : ℚ) ∧ 0 ≤ (0 : ℚ) ∧ (1 : ℚ) / 4 ≤ 1 / 4 ∧ (1 : ℚ) / 4 ≤ 1 / 2 ∧
    ¬ liveFraction (1 / 4) (-1) 0 0 1 ≤ kellyUnconstrained (-1) 1 := by
  refine ⟨by norm_num, by norm_num, by norm_num, by norm_num, ?_⟩
  simp only [liveFraction, f_EK, kellyUnconstrained]
  norm_num

/-- Claim C2, amended: under the additional hypothesis that the
expected alpha return is non-negative, the applied live fraction
eta * f_EK never exceeds the unconstrained Kelly fraction computed
without the cost terms. -/
theorem liveFraction_le_kelly_of_nonneg_alpha
    (mu impact turnover variance eta : ℚ)
    (hvar : 0 < variance) (himp : 0 ≤ impact) (hturn : 0 ≤ turnover)
    (hmu : 0 ≤ mu) (heta₁ : 1 / 4 ≤ eta) (heta₂ : eta ≤ 1 / 2) :
    liveFraction eta mu impact turnover variance ≤ kellyUnconstrained mu variance := by
  have key : eta * (mu - impact - turnover) ≤ mu := by
    nlinarith [mul_nonneg (by linarith : (0 : ℚ) ≤ 1 - eta) hmu,
      mul_nonneg (by linarith : (0 : ℚ) ≤ eta)
        (by linarith : (0 : ℚ) ≤ impact + turnover)]
  have step : eta * ((mu - impact - turnover) / variance) =
      (eta * (mu - impact - turnover)) / variance := by ring
  simp only [liveFraction, f_EK, kellyUnconstrained]
  rw [step]
  exact div_le_div_of_nonneg_right key hvar.le

/-- Witness for the amended claim C2 at a concrete input. -/
theorem liveFraction_le_kelly_witness :
    liveFraction (1 / 4) 2 (1 / 2) (1 / 4) 1 ≤ kellyUnconstrained 2 1 :=
  liveFraction_le_kelly_of_nonneg_alpha 2 (1 / 2) (1 / 4) 1 (1 / 4)
    (by norm_num) (by norm_num) (by norm_num) (by norm_num)
    (by norm_num) (by norm_num)

/-- The last element of a list of positive rationals, with a positive
default, is positive. -/
theorem getLastD_pos : ∀ (l : List ℚ) (a : ℚ), 0 < a →
    (∀ x ∈ l, 0 < x) → 0 < l.getLast?.getD a := by
  intro l
  induction l with
  | nil => intro a ha _; simpa using ha
  | cons b t ih =>
    intro a ha hl
    cases t with
    | nil => simpa using hl b (by simp)
    | cons c t' =>
      rw [List.getLast?_cons_cons]
      exact ih a ha (fun x hx => hl x (List.mem_cons_of_mem _ hx))

/-- Telescoping of log returns along a list of positive rationals: the
sum of the logs of consecutive ratios is the log of last over first. -/
theorem consecutiveRatios_log_sum : ∀ (l : List ℚ) (a : ℚ), 0 < a →
    (∀ x ∈ l, 0 < x) →
    ((consecutiveRatios (a :: l)).map (fun r : ℚ => Real.log (r : ℝ))).sum =
      Real.log ((((a :: l).getLast?.getD a : ℚ) : ℝ) / (a : ℝ)) := by
  intro l
  induction l with
  | nil =>
    intro a ha _
    simp [consecutiveRatios, div_self (ne_of_gt (by exact_mod_cast ha : (0 : ℝ) < (a : ℝ)))]
  | cons b t ih =>
    intro a ha hl
    have hb : 0 < b := hl b (by simp)
    have ht : ∀ x ∈ t, 0 < x := fun x hx => hl x (List.mem_cons_of_mem _ hx)
    have ha' : ((a : ℝ)) ≠ 0 := ne_of_gt (by exact_mod_cast ha)
    have hb' : ((b : ℝ)) ≠ 0 := ne_of_gt (by exact_mod_cast hb)
    have hsome : (b :: t).getLast? = some ((b :: t).getLast (by simp)) :=
      List.getLast?_eq_getLast_of_ne_nil (by simp)
    have hlast : 0 < (b :: t).getLast (by simp) := by
      have h0 := getLastD_pos (b :: t) b hb (fun x hx => hl x hx)
      rw [hsome] at h0
      simpa using h0
    have hlast' : (((b :: t).getLast (by simp) : ℚ) : ℝ) ≠ 0 :=
      ne_of_gt (by exact_mod_cast hlast)
    simp only [consecutiveRatios, List.map_cons, List.sum_cons]
    rw [ih b hb ht, List.getLast?_cons_cons, hsome]
    simp only [Option.getD_some]
    rw [Rat.cast_div, Real.log_div hb' ha', Real.log_div hlast' hb',
      Real.log_div hlast' ha']
    ring

/-- Claim C3: for an equity curve following the update rule with all
points positive, the sum of log returns across the run equals the log
of final over initial equity, exactly, as a telescoping identity. -/
theorem equity_log_returns_telescope (e0 : ℚ) (flows : List (ℚ × ℚ))
    (hpos : ∀ x ∈ equityCurve e0 flows, 0 < x) :
    ((consecutiveRatios (equityCurve e0 flows)).map
        (fun r : ℚ => Real.log (r : ℝ))).sum =
      Real.log ((((equityCurve e0 flows).getLast?.getD e0 : ℚ) : ℝ) / (e0 : ℝ)) := by
  obtain ⟨l, hl⟩ : ∃ l, equityCurve e0 flows = e0 :: l := by
    cases flows with
    | nil => exact ⟨[], rfl⟩
    | cons d rest => exact ⟨_, rfl⟩
  rw [hl] at hpos ⊢
  exact consecutiveRatios_log_sum l e0 (hpos e0 (by simp))
    (fun x hx => hpos x (List.mem_cons_of_mem _ hx))

/-- Witness for claim C3 on a concrete two-day run. -/
theorem equity_log_returns_telescope_witness :
    ((consecutiveRatios (equityCurve 1 [(1, 0), (2, 1)])).map
        (fun r : ℚ => Real.log (r : ℝ))).sum =
      Real.log ((((equityCurve 1 [(1, 0), (2, 1)]).getLast?.getD 1 : ℚ) : ℝ) / ((1 : ℚ) : ℝ)) :=
  equity_log_returns_telescope 1 [(1, 0), (2, 1)] (by
    intro x hx
    simp only [equityCurve, List.mem_cons, List.not_mem_nil, or_false] at hx
    rcases hx with rfl | rfl | rfl <;> norm_num)

/-- Clipping a weight to the per-name cap bounds its absolute value by
the cap. -/
theorem abs_clipWeight_le {m : ℚ} (hm : 0 ≤ m) (w : ℚ) : |clipWeight m w| ≤ m := by
  unfold clipWeight
  rw [abs_le]
  refine ⟨le_max_left _ _, max_le (by linarith) (min_le_left _ _)⟩

/-- Gross exposure scales multiplicatively under a non-negative scalar. -/
theorem grossExposure_map_mul (l : List ℚ) (c : ℚ) (hc : 0 ≤ c) :
    grossExposure (l.map (fun w => w * c)) = grossExposure l * c := by
  induction l with
  | nil => simp [grossExposure]
  | cons a t ih =>
    simp only [grossExposure, List.map_cons, List.sum_cons] at ih ⊢
    rw [abs_mul, abs_of_nonneg hc, ih, add_mul]

/-- The clip-and-rescale half of the constraint projection respects
both caps for every input vector and non-negative caps. -/
theorem clipRescale_respects_caps
    (maxNameWeight grossCap : ℚ) (ws : List ℚ)
    (hm : 0 ≤ maxNameWeight) (hc : 0 ≤ grossCap) :
    (∀ w ∈ clipRescale maxNameWeight grossCap ws, |w| ≤ maxNameWeight) ∧
    grossExposure (clipRescale maxNameWeight grossCap ws) ≤ grossCap := by
  unfold clipRescale
  set clipped := ws.map (clipWeight maxNameWeight) with hclip
  by_cases hg : grossExposure clipped ≤ grossCap
  · rw [if_pos hg]
    constructor
    · intro w hw
      obtain ⟨x, _, rfl⟩ := List.mem_map.mp hw
      exact abs_clipWeight_le hm x
    · exact hg
  · rw [if_neg hg]
    have hgpos : 0 < grossExposure clipped := lt_of_le_of_lt hc (not_le.mp hg)
    have hscale₀ : 0 ≤ grossCap / grossExposure clipped := div_nonneg hc hgpos.le
    have hscale₁ : grossCap / grossExposure clipped ≤ 1 :=
      (div_le_one hgpos).mpr (not_le.mp hg).le
    constructor
    · intro w hw
      obtain ⟨x, hx, rfl⟩ := List.mem_map.mp hw
      obtain ⟨y, _, rfl⟩ := List.mem_map.mp hx
      calc |clipWeight maxNameWeight y * (grossCap / grossExposure clipped)|
          = |clipWeight maxNameWeight y| * (grossCap / grossExposure clipped) := by
            rw [abs_mul, abs_of_nonneg hscale₀]
        _ ≤ |clipWeight maxNameWeight y| * 1 :=
            mul_le_mul_of_nonneg_left hscale₁ (abs_nonneg _)
        _ = |clipWeight maxNameWeight y| := mul_one _
        _ ≤ maxNameWeight := abs_clipWeight_le hm y
    · rw [grossExposure_map_mul _ _ hscale₀,
        mul_div_cancel₀ _ (ne_of_gt hgpos)]

/-- A neutrality adjustment with zero factor exposure, or against a
degenerate factor, leaves the weight vector unchanged. -/
theorem neutralityAdjust_eq_self (f v : List ℚ)
    (h : dot v f = 0 ∨ dot f f = 0) : neutralityAdjust f v = v := by
  unfold neutralityAdjust
  rcases h with h | h
  · by_cases hd : dot f f = 0
    · rw [if_pos hd]
    · rw [if_neg hd, h]
      simp only [zero_div, zero_mul, sub_zero]
      exact List.enum_map_snd v
  · rw [if_pos h]

/-- Claim C4, counterexample: the neutrality adjustment that closes
step 5 can push a weight past the per-name cap. With per-name cap 1 and
gross cap 3, the alphas (1, 1, -1) survive clipping and rescaling
unchanged, but subtracting their projection onto the factor (1, 1, 1)
leaves the weight -4/3, whose absolute value exceeds the cap. -/
theorem sizeWeights_neutrality_breaks_cap :
    0 ≤ (1 : ℚ) ∧ 0 ≤ (3 : ℚ) ∧
    sizeWeights 1 1 1 1 1 3 [1, 1, 1] [1, 1, -1] =
      [2 / 3, 2 / 3, -(4 / 3)] ∧
    (-(4 / 3) : ℚ) ∈ sizeWeights 1 1 1 1 1 3 [1, 1, 1] [1, 1, -1] ∧
    ¬ |(-(4 / 3) : ℚ)| ≤ 1 := by
  have e1 : clipWeight 1 (1 : ℚ) = 1 := by
    unfold clipWeight
    rw [min_self]
    exact max_eq_right (by norm_num)
  have e2 : clipWeight 1 (-1 : ℚ) = -1 := by
    unfold clipWeight
    rw [min_eq_right (by norm_num : (-1 : ℚ) ≤ 1)]
    exact max_self (-1)
  have hraw : rawWeights 1 1 1 1 [1, 1, -1] = ([1, 1, -1] : List ℚ) := by
    simp [rawWeights]
  have hcr : clipRescale 1 3 ([1, 1, -1] : List ℚ) = [1, 1, -1] := by
    simp only [clipRescale, List.map_cons, List.map_nil, e1, e2]
    rw [if_pos]
    simp only [grossExposure, List.map_cons, List.map_nil, List.sum_cons,
      List.sum_nil, abs_one, abs_neg]
    norm_num
  have hadj : neutralityAdjust [1, 1, 1] ([1, 1, -1] : List ℚ) =
      [2 / 3, 2 / 3, -(4 / 3)] := by
    have hdff : dot ([1, 1, 1] : List ℚ) [1, 1, 1] = 3 := by
      simp [dot]
      norm_num
    have hdvf : dot ([1, 1, -1] : List ℚ) [1, 1, 1] = 1 := by
      simp [dot]
    unfold neutralityAdjust
    rw [hdff, hdvf, if_neg (by norm_num : (3 : ℚ) ≠ 0)]
    simp only [List.enum, List.enumFrom, List.map_cons, List.map_nil,
      List.getD_cons_zero, List.getD_cons_succ]
    norm_num
  have hval : sizeWeights 1 1 1 1 1 3 [1, 1, 1] [1, 1, -1] =
      [2 / 3, 2 / 3, -(4 / 3)] := by
    unfold sizeWeights constraintProject
    rw [hraw, hcr, hadj]
  refine ⟨by norm_num, by norm_num, hval, ?_, ?_⟩
  · rw [hval]
    simp
  · rw [abs_neg, abs_of_nonneg (by norm_num : (0 : ℚ) ≤ 4 / 3)]
    norm_num

/-- Claim C4, amended: the caps hold whenever the sector/beta-neutrality
adjustment is trivial on the date — the clipped and rescaled weights
already have zero exposure to the factor direction, or the factor is
degenerate and the no-adjustment fallback of section 7 applies. -/
theorem sizeWeights_respects_caps_of_neutral
    (leverage riskMultiplier kellyScale ddBrake maxNameWeight grossCap : ℚ)
    (f alphas : List ℚ) (hm : 0 ≤ maxNameWeight) (hc : 0 ≤ grossCap)
    (hneutral :
      dot (clipRescale maxNameWeight grossCap
        (rawWeights leverage riskMultiplier kellyScale ddBrake alphas)) f = 0 ∨
      dot f f = 0) :
    (∀ w ∈ sizeWeights leverage riskMultiplier kellyScale ddBrake
        maxNameWeight grossCap f alphas, |w| ≤ maxNameWeight) ∧
    grossExposure (sizeWeights leverage riskMultiplier kellyScale ddBrake
        maxNameWeight grossCap f alphas) ≤ grossCap := by
  have hnoop : sizeWeights leverage riskMultiplier kellyScale ddBrake
      maxNameWeight grossCap f alphas =
      clipRescale maxNameWeight grossCap
        (rawWeights leverage riskMultiplier kellyScale ddBrake alphas) := by
    unfold sizeWeights constraintProject
    exact neutralityAdjust_eq_self f _ hneutral
  rw [hnoop]
  exact clipRescale_respects_caps maxNameWeight grossCap _ hm hc

/-- Witness for the amended claim C4: a factor-neutral concrete book
that exercises the clipping stage. -/
theorem sizeWeights_respects_caps_of_neutral_witness :
    (∀ w ∈ sizeWeights 1 1 1 1 (1 / 2) 1 [1, -1] [1, 1], |w| ≤ (1 : ℚ) / 2) ∧
    grossExposure (sizeWeights 1 1 1 1 (1 / 2) 1 [1, -1] [1, 1]) ≤ (1 : ℚ) := by
  refine sizeWeights_respects_caps_of_neutral 1 1 1 1 (1 / 2) 1 [1, -1] [1, 1]
    (by norm_num) (by norm_num) (Or.inl ?_)
  have ec : clipWeight (1 / 2) (1 : ℚ) = 1 / 2 := by
    unfold clipWeight
    rw [min_eq_left (by norm_num : (1 : ℚ) / 2 ≤ 1)]
    exact max_eq_right (by norm_num)
  have hraw : rawWeights 1 1 1 1 [1, 1] = ([1, 1] : List ℚ) := by
    simp [rawWeights]
  have hcr : clipRescale (1 / 2) 1 ([1, 1] : List ℚ) = [1 / 2, 1 / 2] := by
    simp only [clipRescale, List.map_cons, List.map_nil, ec]
    rw [if_pos]
    simp only [grossExposure, List.map_cons, List.map_nil, List.sum_cons,
      List.sum_nil]
    rw [abs_of_nonneg (by norm_num : (0 : ℚ) ≤ 1 / 2)]
    norm_num
  rw [hraw, hcr]
  simp [dot]

/-- Claim C5: the cost model never divides by zero (the degenerate
branches substitute configured defaults by construction) and both the
estimate and the realized charge are non-negative for every order
candidate, including candidates with zero average daily volume or
missing spread data. -/
theorem costEstimate_nonneg (sqrtF : ℚ → ℚ) (p : CostParams) (o : OrderCandidate)
    (hs : ∀ x, 0 ≤ sqrtF x) (hk : 0 ≤ p.k) (hb : 0 ≤ p.borrowRate)
    (hsl : 0 ≤ p.slippageBuffer) (hds : 0 ≤ p.defaultSpreadPct)
    (hn : 0 ≤ o.notional) (hsn : 0 ≤ o.shortNotional) :
    0 ≤ costEstimate sqrtF p o ∧ 0 ≤ costCharge sqrtF p o := by
  have h1 : 0 ≤ spreadCost p o := by
    unfold spreadCost
    refine mul_nonneg (div_nonneg ?_ (by norm_num)) hn
    cases hsp : o.spreadPct with
    | none => exact hds
    | some s =>
      by_cases h : s ≤ 0
      · simp [h, hds]
      · simp only [if_neg h]
        linarith [not_le.mp h]
  have h2 : 0 ≤ impactCost sqrtF p o := by
    unfold impactCost
    exact mul_nonneg (mul_nonneg hk (hs _)) hn
  have h3 : 0 ≤ borrowCost p o := mul_nonneg hb hsn
  have h4 : 0 ≤ costEstimate sqrtF p o := by
    unfold costEstimate
    have := add_nonneg (add_nonneg (add_nonneg h1 h2) h3) hsl
    linarith
  exact ⟨h4, h4⟩

/-- Witness for claim C5 at the degenerate input of the spec scenario:
zero average daily volume and absent spread data. -/
theorem costEstimate_nonneg_witness :
    0 ≤ costEstimate (fun _ => 0) ⟨1, 1, 1, 1, 1⟩ ⟨10, 100, 0, 0, none⟩ ∧
    0 ≤ costCharge (fun _ => 0) ⟨1, 1, 1, 1, 1⟩ ⟨10, 100, 0, 0, none⟩ :=
  costEstimate_nonneg (fun _ => 0) ⟨1, 1, 1, 1, 1⟩ ⟨10, 100, 0, 0, none⟩
    (fun _ => le_refl 0) (by norm_num) (by norm_num) (by norm_num)
    (by norm_num) (by norm_num) (by norm_num)

/-- Claim C6: on a CSV whose header line is exactly
timestamp,equity,cash followed by data rows each having at least three
comma-separated fields, readLivePnl returns one record per data row in
row order, with the timestamp taken from the first field and equity and
cash the numeric parses of the second and third fields. -/
theorem readLivePnl_parses_rows (num : Option String → ℚ) (raw : String)
    (rows : List String)
    (hsplit : jsSplitLines (jsTrim raw) = "timestamp,equity,cash" :: rows)
    (hfields : ∀ r ∈ rows, 3 ≤ (jsSplit ',' r).length) :
    readLivePnl num raw = rows.map (fun r =>
      { timestamp := some ((jsSplit ',' r).getD 0 "")
        equity := num (some ((jsSplit ',' r).getD 1 ""))
        cash := num (some ((jsSplit ',' r).getD 2 "")) }) := by
  unfold readLivePnl
  rw [hsplit]
  rfl

/-- Witness for claim C6 on a concrete two-row CSV, one row with a
carriage-return line ending. -/
theorem readLivePnl_parses_rows_witness :
    readLivePnl (fun _ => 0)
        "timestamp,equity,cash\n2024-01-01,100,50\r\n2024-01-02,101,49" =
      [{ timestamp := some "2024-01-01", equity := 0, cash := 0 },
       { timestamp := some "2024-01-02", equity := 0, cash := 0 }] := by
  rw [readLivePnl_parses_rows (fun _ => 0) _
    ["2024-01-01,100,50", "2024-01-02,101,49"] (by decide) (by decide)]
  decide

/-- Claim C8: both readers return the empty list when the underlying
file read fails, and on a readable trades CSV with the standard header
each data row maps to a record with exactly the fields date, symbol,
quantity, price, notional and sleeve, the three numeric ones parsed. -/
theorem readers_failclosed_and_parse (num : Option String → ℚ) (raw : String)
    (rows : List String)
    (hsplit : jsSplitLines (jsTrim raw) =
      "date,symbol,quantity,price,notional,sleeve" :: rows)
    (hfields : ∀ r ∈ rows, 6 ≤ (jsSplit ',' r).length) :
    readTradesCsvResult num none = [] ∧ readLivePnlResult num none = [] ∧
    readTradesCsvResult num (some raw) = rows.map (fun r =>
      { date := some ((jsSplit ',' r).getD 0 "")
        symbol := some ((jsSplit ',' r).getD 1 "")
        quantity := num (some ((jsSplit ',' r).getD 2 ""))
        price := num (some ((jsSplit ',' r).getD 3 ""))
        notional := num (some ((jsSplit ',' r).getD 4 ""))
        sleeve := some ((jsSplit ',' r).getD 5 "") }) := by
  refine ⟨rfl, rfl, ?_⟩
  show readTradesCsv num raw = _
  unfold readTradesCsv
  rw [hsplit]
  rfl

/-- Witness for claim C8 on a concrete one-row trades CSV. -/
theorem readers_failclosed_and_parse_witness :
    readTradesCsvResult (fun _ => 0) none = [] ∧
    readLivePnlResult (fun _ => 0) none = [] ∧
    readTradesCsvResult (fun _ => 0)
        (some "date,symbol,quantity,price,notional,sleeve\n2024-01-02,AAPL,10,190,1900,momentum") =
      [{ date := some "2024-01-02", symbol := some "AAPL", quantity := 0,
         price := 0, notional := 0, sleeve := some "momentum" }] := by
  have h := readers_failclosed_and_parse (fun _ => 0)
    "date,symbol,quantity,price,notional,sleeve\n2024-01-02,AAPL,10,190,1900,momentum"
    ["2024-01-02,AAPL,10,190,1900,momentum"] (by decide) (by decide)
  refine ⟨h.1, h.2.1, ?_⟩
  rw [h.2.2]
  decide

/-- Claim C9, counterexample: a request whose symbols parameter is
present but equal to the empty string also receives status 400, so the
response is 400 without the parameter being absent. -/
theorem watchlistGET_emptyparam_cex :
    watchlistGET (fun _ => (none : Option Unit)) (some "") =
      WatchlistResponse.badRequest ∧
    (some "" : Option String) ≠ none :=
  ⟨rfl, Option.some_ne_none _⟩

/-- Claim C9, amended: the response is 400 exactly when the symbols
parameter is absent or empty; otherwise the payload pairs each
non-empty trimmed comma-separated symbol, in request order, with its
fetched quote. -/
theorem watchlistGET_badRequest_iff {Q : Type} (fetchQuote : String → Option Q)
    (p : Option String) :
    (watchlistGET fetchQuote p = WatchlistResponse.badRequest ↔
      (p = none ∨ p = some "")) ∧
    (∀ s, p = some s → s ≠ "" →
      watchlistGET fetchQuote p = WatchlistResponse.ok
        ((((jsSplit ',' s).map jsTrim).filter (fun x => x ≠ "")).map
          (fun sym => (sym, fetchQuote sym)))) := by
  constructor
  · cases p with
    | none => simp [watchlistGET]
    | some s =>
      by_cases h : s = ""
      · subst h; simp [watchlistGET]
      · simp [watchlistGET, h]
  · intro s hs hne
    subst hs
    simp [watchlistGET, hne]

/-- Witness for the amended claim C9 on a concrete request. -/
theorem watchlistGET_badRequest_iff_witness :
    watchlistGET (fun _ => (none : Option Unit)) (some "a, b ,") =
      WatchlistResponse.ok [("a", none), ("b", none)] := by
  rw [(watchlistGET_badRequest_iff (fun _ => (none : Option Unit))
    (some "a, b ,")).2 "a, b ," rfl (by decide)]
  decide

/-- Claim C10: with an unset key id or secret the snapshot is the
all-default record, and with truthy credentials each of the four broker
results is mapped to its field independently, a failure replaced by
that default (none or the empty list) while the other fields keep
their own results. -/
theorem fetchAlpacaSnapshot_failclosed {Acc Pos Ord Clk E₁ E₂ E₃ E₄ : Type}
    (keyId secretKey : Option String)
    (getAccount : Except E₁ Acc) (getPositions : Except E₂ (List Pos))
    (getOrders : Except E₃ (List Ord)) (getClock : Except E₄ Clk) :
    ((keyId = none ∨ secretKey = none) →
      fetchAlpacaSnapshot keyId secretKey getAccount getPositions getOrders getClock =
        { account := none, positions := [], openOrders := [], clock := none }) ∧
    (jsTruthyStr keyId = true → jsTruthyStr secretKey = true →
      fetchAlpacaSnapshot keyId secretKey getAccount getPositions getOrders getClock =
        { account := getAccount.toOption
          positions := match getPositions with | .ok v => v | .error _ => []
          openOrders := match getOrders with | .ok v => v | .error _ => []
          clock := getClock.toOption }) := by
  constructor
  · rintro (h | h) <;> subst h <;>
      simp [fetchAlpacaSnapshot, getAlpacaClient, jsTruthyStr]
  · intro h1 h2
    simp [fetchAlpacaSnapshot, getAlpacaClient, h1, h2]

/-- Witness for claim C10 with truthy credentials, two failing calls
and two succeeding calls. -/
theorem fetchAlpacaSnapshot_failclosed_witness :
    fetchAlpacaSnapshot (some "k") (some "s")
        (Except.error () : Except Unit Unit)
        (Except.ok [()] : Except Unit (List Unit))
        (Except.error () : Except Unit (List Unit))
        (Except.ok () : Except Unit Unit) =
      { account := none, positions := [()], openOrders := [], clock := some () } := by
  rw [(fetchAlpacaSnapshot_failclosed (some "k") (some "s")
    (Except.error () : Except Unit Unit)
    (Except.ok [()] : Except Unit (List Unit))
    (Except.error () : Except Unit (List Unit))
    (Except.ok () : Except Unit Unit)).2 rfl rfl]
  rfl

/-- The daily engine step is deterministic: from one state only one
successor state is possible, because the Warmup and Active guards are
mutually exclusive and each transition is a function of the state. -/
theorem engineStep_deterministic {D : Type} (minLookback : ℕ)
    (pipe : D → List D → List ℚ → ℚ → List ℚ × ℚ)
    {s t t' : EngineState D}
    (h1 : EngineStep minLookback pipe s t)
    (h2 : EngineStep minLookback pipe s t') : t = t' := by
  cases h1 with
  | warmup d rest h w e elog tlog hlt =>
    cases h2 with
    | warmup _ _ _ _ _ _ _ _ => rfl
    | active _ _ _ _ _ _ _ hge => exact absurd hge (by omega)
  | active d rest h w e elog tlog hge =>
    cases h2 with
    | warmup _ _ _ _ _ _ _ hlt => exact absurd hge (by omega)
    | active _ _ _ _ _ _ _ _ => rfl

/-- A state with no remaining dates is Terminal: it has no successor. -/
theorem engineStep_not_terminal {D : Type} (minLookback : ℕ)
    (pipe : D → List D → List ℚ → ℚ → List ℚ × ℚ)
    {s t : EngineState D} (h : EngineStep minLookback pipe s t) :
    s.remaining ≠ [] := by
  cases h <;> simp

/-- Unique normal forms for the engine: two runs from the same state
that both end in a Terminal state end in the same state. -/
theorem engineRun_unique_aux {D : Type} (minLookback : ℕ)
    (pipe : D → List D → List ℚ → ℚ → List ℚ × ℚ)
    {a b : EngineState D}
    (hab : Relation.ReflTransGen (EngineStep minLookback pipe) a b)
    (hb : b.remaining = []) :
    ∀ c, Relation.ReflTransGen (EngineStep minLookback pipe) a c →
      c.remaining = [] → b = c := by
  induction hab using Relation.ReflTransGen.head_induction_on with
  | refl =>
    intro c hac hc
    rcases Relation.ReflTransGen.cases_head hac with heq | ⟨mid, hstep, _⟩
    · exact heq
    · exact absurd hb (engineStep_not_terminal _ _ hstep)
  | head hstep hrest ih =>
    intro c hac hc
    rcases Relation.ReflTransGen.cases_head hac with heq | ⟨mid, hstep2, hrest2⟩
    · subst heq
      exact absurd hc (engineStep_not_terminal _ _ hstep)
    · have hmid := engineStep_deterministic minLookback pipe hstep hstep2
      subst hmid
      exact ih c hrest2 hc

/-- Claim C7: the engine is deterministic. A complete run is a function
of the initial state: any two complete runs (reflexive-transitive
closures of the daily step reaching a Terminal state) from the same
initial state end in identical final states, hence with identical
persisted equity and trade logs; in particular the sizing embedded in
the pipeline function is applied identically in both runs. -/
theorem engineRun_deterministic {D : Type} (minLookback : ℕ)
    (pipe : D → List D → List ℚ → ℚ → List ℚ × ℚ)
    (s f₁ f₂ : EngineState D)
    (h1 : EngineRunsTo minLookback pipe s f₁)
    (h2 : EngineRunsTo minLookback pipe s f₂) : f₁ = f₂ :=
  engineRun_unique_aux minLookback pipe h1.1 h1.2 f₂ h2.1 h2.2

/-- Witness for claim C7: a concrete one-day Active run executed twice
from the same initial state. -/
theorem engineRun_deterministic_witness :
    (⟨[], [()], [], 0, [0], [[]]⟩ : EngineState Unit) = ⟨[], [()], [], 0, [0], [[]]⟩ := by
  have hrun : EngineRunsTo 0 (fun _ _ _ _ => ([], 0))
      (⟨[()], [], [], 1, [], []⟩ : EngineState Unit) ⟨[], [()], [], 0, [0], [[]]⟩ :=
    ⟨Relation.ReflTransGen.single
      (EngineStep.active () [] [] [] 1 [] [] (Nat.le_refl 0)), rfl⟩
  exact engineRun_deterministic 0 (fun _ _ _ _ => ([], 0)) _ _ _ hrun hrun
